import Mathlib

/-!
Verification development for the PetroEnergyAI model pipeline.

The embedding below translates the model-lifecycle core of the repository:
src/pipeline.py (class ModelPipeline), src/models/market_forecaster.py
(class MarketForecaster) and src/maintenance_predictor.py
(class MaintenancePredictor).

Conventions of the embedding:
- Python exceptions are modelled with the Except monad over the error kind
  PyErr; a caught exception is a matched .error value.
- joblib artifacts on disk are a finite-support map from path strings to
  Artifact values; a corrupted file is the Artifact.corrupted constructor,
  whose joblib.load raises.
- scikit-learn fitted estimators are opaque deterministic functions: a fitted
  RandomForestRegressor is a function from the day-of-year feature to a price,
  a fitted IsolationForest is a function from the health score to a label in
  the set containing -1 (anomaly) and 1 (normal).  Training is an abstract
  parameter (fitRF, fitIF): the fixed random_state=42 seed in the source makes
  the real fit a deterministic function of the training data, which is exactly
  what a Lean function argument expresses.
- pandas data frames are lists of row structures; a missing (NaN) value in a
  column is Option.none.  CSV identifiers are modelled as naturals; pandas
  groupby sorts keys ascending, which only needs a linear order on keys.
-/

/-- Python-level error kinds raised by the translated code paths.
valueErrorInsufficientData is the ValueError raised by
MarketForecaster.train_ensemble_models; valueErrorNaNInput is the
scikit-learn ValueError for NaN in the input column; valueErrorEmptyFit is
the scikit-learn ValueError for fitting on zero samples; unpicklingError is
the deserialization failure on a corrupted artifact; typeError is the arity
error of calling MaintenancePredictor.load_model with a path argument;
attributeError is the lookup failure of an undefined method or attribute;
notFittedError is the scikit-learn error for predicting with an unfitted
estimator; fileNotFoundError is raised by opening a missing path. -/
inductive PyErr where
  | typeError
  | attributeError
  | notFittedError
  | fileNotFoundError
  | valueErrorInsufficientData
  | valueErrorNaNInput
  | valueErrorEmptyFit
  | unpicklingError
deriving DecidableEq

/-- A fitted RandomForestRegressor: day-of-year feature to predicted price. -/
def Regressor : Type := Nat → ℚ

/-- A fitted IsolationForest: health score to a label, -1 anomaly, 1 normal. -/
def MaintModel : Type := ℚ → Int

/-- The possible deserialized contents of a .pkl artifact.  bundle is the
dict self.model of MarketForecaster (keys WTI and Brent, no version key);
isoForest is the fitted IsolationForest object dumped by
MaintenancePredictor.save_model; the versioned constructors are dicts that
do carry a version key, as expected by the version check of
ModelPipeline._try_load_model. -/
inductive Payload where
  | bundle (wti brent : Option Regressor)
  | isoForest (m : MaintModel)
  | versionedBundle (version : String) (wti brent : Option Regressor)
  | versionedIso (version : String) (m : MaintModel)

/-- A file on disk: either a well-formed pickle of some payload, or bytes on
which joblib.load raises. -/
inductive Artifact where
  | ok (p : Payload)
  | corrupted

/-- The persisted-model state: which artifact, if any, sits at each path. -/
def FS : Type := String → Option Artifact

/-- Writing an artifact at a path (joblib.dump). -/
def FS.update (fs : FS) (path : String) (a : Artifact) : FS :=
  fun q => if q = path then some a else fs q

/-- The empty models directory. -/
def fsEmpty : FS := fun _ => none

/-- joblib.load: deserialization, raising on a corrupted file. -/
def joblibLoad (a : Artifact) : Except PyErr Payload :=
  match a with
  | .ok p => .ok p
  | .corrupted => .error .unpicklingError

/-- The version key of a loaded payload, when the payload is a dict carrying
one (the isinstance dict and version-in-dict test of _try_load_model). -/
def payloadVersion (p : Payload) : Option String :=
  match p with
  | .bundle _ _ => none
  | .isoForest _ => none
  | .versionedBundle v _ _ => some v
  | .versionedIso v _ => some v

/-! ## MarketForecaster (src/models/market_forecaster.py) -/

/-- A calendar date: an identifying timestamp together with the day-of-year
component that pandas dt.dayofyear extracts from it. -/
structure CalDate where
  stamp : Int
  doy : Nat
deriving DecidableEq

/-- One row of the market data frame: DATE, WTIPRICE, BRENTPRICE.
A missing price is none. -/
structure PriceRow where
  date : CalDate
  wtiPrice : Option ℚ
  brentPrice : Option ℚ
deriving DecidableEq

/-- One row of the prediction frame returned by predict_prices: DATE,
WTIPRICE_PRED, BRENTPRICE_PRED. -/
structure PredRow where
  date : CalDate
  wtiPred : ℚ
  brentPred : ℚ
deriving DecidableEq

/-- The state of a MarketForecaster instance: the WTI and Brent entries of
self.model.  none models a freshly constructed, unfitted
RandomForestRegressor; some g a fitted one. -/
structure MarketForecaster where
  wti : Option Regressor
  brent : Option Regressor

/-- MarketForecaster.__init__: two unfitted regressors (n_estimators=100,
random_state=42 for both). -/
def mkMarketForecaster : MarketForecaster := ⟨none, none⟩

/-- RandomForestRegressor.fit on feature column X and target column y:
scikit-learn raises on NaN in the target; otherwise the fitted model is the
deterministic function of the training pairs given by fitRF (the fixed seed
makes the real fit deterministic). -/
def sklearnFit (fitRF : List (Nat × ℚ) → Regressor) (X : List Nat)
    (y : List (Option ℚ)) : Except PyErr Regressor :=
  if y.any (fun v => v.isNone) then .error .valueErrorNaNInput
  else .ok (fitRF (X.zip (y.map (fun v => v.getD 0))))

/-- MarketForecaster.train_ensemble_models: build the DAYOFYEAR feature from
DATE, take the two target columns, raise ValueError when the feature set is
empty or either target column is entirely NaN, otherwise fit both
regressors. -/
def trainEnsembleModels (fitRF : List (Nat × ℚ) → Regressor)
    (rows : List PriceRow) : Except PyErr MarketForecaster :=
  let X := rows.map (fun r => r.date.doy)
  let y1 := rows.map (fun r => r.wtiPrice)
  let y2 := rows.map (fun r => r.brentPrice)
  if X.isEmpty || y1.all (fun v => v.isNone) || y2.all (fun v => v.isNone) then
    .error .valueErrorInsufficientData
  else
    match sklearnFit fitRF X y1 with
    | .error e => .error e
    | .ok gw =>
      match sklearnFit fitRF X y2 with
      | .error e => .error e
      | .ok gb => .ok ⟨some gw, some gb⟩

/-- MarketForecaster.predict_prices: one output row per future date, in input
order, with a WTI and a Brent estimate from the day-of-year feature.
Predicting with an unfitted regressor raises. -/
def predictPrices (f : MarketForecaster) (dates : List CalDate) :
    Except PyErr (List PredRow) :=
  match f.wti, f.brent with
  | some gw, some gb => .ok (dates.map (fun d => ⟨d, gw d.doy, gb d.doy⟩))
  | _, _ => .error .notFittedError

/-- MarketForecaster.save_model: joblib.dump of the model dict at the path. -/
def saveForecaster (f : MarketForecaster) (path : String) (fs : FS) : FS :=
  fs.update path (.ok (.bundle f.wti f.brent))

/-- Train then predict, the composition a caller performs. -/
def trainThenPredict (fitRF : List (Nat × ℚ) → Regressor)
    (rows : List PriceRow) (dates : List CalDate) : Except PyErr (List PredRow) :=
  match trainEnsembleModels fitRF rows with
  | .error e => .error e
  | .ok f => predictPrices f dates

/-! ## MaintenancePredictor (src/maintenance_predictor.py) -/

/-- One row of the equipment readings frame: FACILITYID, EQUIPMENTID,
TIMESTAMP, HEALTHSCORE.  A missing health score is none. -/
structure Reading where
  facilityId : Nat
  equipmentId : Nat
  timestamp : Int
  healthscore : Option ℚ
deriving DecidableEq

/-- The state of a MaintenancePredictor instance: its own model path and
self.model (none when untrained; after load_model it may hold any
deserialized payload). -/
structure MaintenancePredictor where
  modelPath : String
  model : Option Payload

/-- The default model_path of MaintenancePredictor.__init__. -/
def defaultMaintPath : String := "models/maintenance_model.pkl"

/-- MaintenancePredictor.__init__ with the default path: untrained. -/
def mkMaintenancePredictor : MaintenancePredictor := ⟨defaultMaintPath, none⟩

/-- MaintenancePredictor.save_model(path): a no-op when self.model is None,
otherwise joblib.dump of self.model at the given path. -/
def saveMaintModel (p : MaintenancePredictor) (path : String) (fs : FS) : FS :=
  match p.model with
  | none => fs
  | some pl => fs.update path (.ok pl)

/-- MaintenancePredictor.train_anomaly_model: a no-op on an empty frame;
otherwise drop the NaN health scores, fit the IsolationForest
(contamination=0.05, random_state=42, abstracted as the deterministic fitIF)
and persist to self.model_path.  scikit-learn raises when the dropna leaves
zero samples to fit. -/
def trainAnomalyModel (fitIF : List ℚ → MaintModel) (p : MaintenancePredictor)
    (df : List Reading) (fs : FS) : Except PyErr (MaintenancePredictor × FS) :=
  if df.isEmpty then .ok (p, fs)
  else
    let X := (df.map (fun r => r.healthscore)).reduceOption
    if X.isEmpty then .error .valueErrorEmptyFit
    else
      let p2 : MaintenancePredictor := { p with model := some (.isoForest (fitIF X)) }
      .ok (p2, saveMaintModel p2 p2.modelPath fs)

/-- MaintenancePredictor.load_model (a zero-argument method): read
self.model_path when a file exists there, propagating any deserialization
error; no-op when the file is absent. -/
def maintLoadModelSelf (fs : FS) (p : MaintenancePredictor) :
    Except PyErr MaintenancePredictor :=
  match fs p.modelPath with
  | none => .ok p
  | some a =>
    match joblibLoad a with
    | .error e => .error e
    | .ok pl => .ok { p with model := some pl }

/-- Attribute access self.model.predict: defined for a fitted
IsolationForest; any other loaded payload is a plain dict with no predict
method, so the lookup raises AttributeError. -/
def payloadPredictAttr (pl : Payload) : Except PyErr (ℚ → Int) :=
  match pl with
  | .isoForest m => .ok m
  | _ => .error .attributeError

/-- MaintenancePredictor.predict_anomalies: lazily load when untrained;
with no model or an empty frame return the all-normal series of length
len(df); otherwise fill missing health scores with 0 and classify each
row. -/
def predictAnomalies (fs : FS) (p : MaintenancePredictor) (df : List Reading) :
    Except PyErr (List Int) :=
  match (if p.model.isNone then maintLoadModelSelf fs p else .ok p) with
  | .error e => .error e
  | .ok p2 =>
    match p2.model with
    | none => .ok (List.replicate df.length 1)
    | some pl =>
      if df.isEmpty then .ok (List.replicate df.length 1)
      else
        match payloadPredictAttr pl with
        | .error e => .error e
        | .ok predictFn => .ok (df.map (fun r => predictFn (r.healthscore.getD 0)))

/-! ## The maintenance report (generate_maintenance_report)

The report pipeline of the source: classify every reading, keep the rows
labelled -1, group by (FACILITYID, EQUIPMENTID) aggregating the minimum
health score and the latest timestamp (pandas groupby emits groups sorted
ascending by key), rank the groups by minimum health score with
rank(method='first') which breaks ties by position in the grouped frame,
and emit sorted by that rank. -/

/-- One row of the maintenance report data frame. -/
structure ReportRow where
  facilityId : Nat
  equipmentId : Nat
  minScore : ℚ
  lastSeen : Int
  priority : Nat
deriving DecidableEq

/-- An aggregated group before ranking: key columns, Min Health Score,
Last Seen. -/
structure GroupRow where
  facilityId : Nat
  equipmentId : Nat
  minScore : ℚ
  lastSeen : Int
deriving DecidableEq

/-- The groupby key of a reading. -/
def rkey (r : Reading) : Nat × Nat := (r.facilityId, r.equipmentId)

/-- The groupby key of an aggregated group. -/
def gkey (g : GroupRow) : Nat × Nat := (g.facilityId, g.equipmentId)

/-- Lexicographic strict order on groupby keys; pandas sorts group keys
ascending in this order. -/
def keyLT (a b : Nat × Nat) : Prop :=
  a.1 < b.1 ∨ (a.1 = b.1 ∧ a.2 < b.2)

instance : DecidableRel keyLT := fun a b =>
  inferInstanceAs (Decidable (a.1 < b.1 ∨ (a.1 = b.1 ∧ a.2 < b.2)))

/-- Insert one anomalous reading into the key-sorted aggregation list,
merging by min on the health score and max on the timestamp when the key is
already present. -/
def insertReading (r : Reading) : List GroupRow → List GroupRow
  | [] => [⟨r.facilityId, r.equipmentId, r.healthscore.getD 0, r.timestamp⟩]
  | g :: gs =>
    if keyLT (rkey r) (gkey g) then
      ⟨r.facilityId, r.equipmentId, r.healthscore.getD 0, r.timestamp⟩ :: g :: gs
    else if rkey r = gkey g then
      { g with minScore := min g.minScore (r.healthscore.getD 0),
               lastSeen := max g.lastSeen r.timestamp } :: gs
    else g :: insertReading r gs

/-- groupby((FACILITYID, EQUIPMENTID)).agg(min HEALTHSCORE, max TIMESTAMP):
the key-sorted aggregated groups. -/
def groupAgg (rs : List Reading) : List GroupRow :=
  rs.foldl (fun gs r => insertReading r gs) []

/-- The strict order that rank(method='first', ascending=True) ranks by:
by value ascending, ties by position in the frame. -/
def scoreIdxLT (x y : Nat × GroupRow) : Prop :=
  x.2.minScore < y.2.minScore ∨ (x.2.minScore = y.2.minScore ∧ x.1 < y.1)

instance : DecidableRel scoreIdxLT := fun x y =>
  inferInstanceAs (Decidable (x.2.minScore < y.2.minScore ∨
    (x.2.minScore = y.2.minScore ∧ x.1 < y.1)))

/-- The rank of a positioned row within a frame: one more than the number of
rows strictly before it in the scoreIdxLT order. -/
def prioIn (L : List (Nat × GroupRow)) (x : Nat × GroupRow) : Nat :=
  1 + L.countP (fun z => decide (scoreIdxLT z x))

/-- The grouped frame with positions and the Priority column of
rank(method='first'). -/
def rankFirstIdx (gs : List GroupRow) : List (Nat × GroupRow × Nat) :=
  gs.enum.map (fun x => (x.1, x.2, prioIn gs.enum x))

/-- Comparison by the Priority column, the sort key of the final
sort_values. -/
def priorityLE (x y : Nat × GroupRow × Nat) : Prop := x.2.2 ≤ y.2.2

instance : DecidableRel priorityLE := fun x y =>
  inferInstanceAs (Decidable (x.2.2 ≤ y.2.2))

instance : IsTotal (Nat × GroupRow × Nat) priorityLE :=
  ⟨fun a b => Nat.le_total a.2.2 b.2.2⟩

instance : IsTrans (Nat × GroupRow × Nat) priorityLE :=
  ⟨fun _ _ _ h1 h2 => Nat.le_trans h1 h2⟩

/-- sort_values(by='Priority'): the Priority values are pairwise distinct, so
any comparison sort yields this result. -/
def sortByPriority (l : List (Nat × GroupRow × Nat)) : List (Nat × GroupRow × Nat) :=
  List.insertionSort priorityLE l

/-- The emitted report rows: ranked groups sorted by Priority, with the
positional index of the intermediate frame dropped on emission. -/
def reportRows (gs : List GroupRow) : List ReportRow :=
  (sortByPriority (rankFirstIdx gs)).map
    (fun t => ⟨t.2.1.facilityId, t.2.1.equipmentId, t.2.1.minScore,
               t.2.1.lastSeen, t.2.2⟩)

/-- MaintenancePredictor.generate_maintenance_report: lazily load when
untrained; with no model or an empty frame return the empty report;
otherwise classify (model.predict validates the raw column, so a NaN health
score raises here, there is no fillna on this path), keep the anomalies,
aggregate, rank and sort. -/
def generateMaintenanceReport (fs : FS) (p : MaintenancePredictor)
    (df : List Reading) : Except PyErr (List ReportRow) :=
  match (if p.model.isNone then maintLoadModelSelf fs p else .ok p) with
  | .error e => .error e
  | .ok p2 =>
    match p2.model with
    | none => .ok []
    | some pl =>
      if df.isEmpty then .ok []
      else
        match payloadPredictAttr pl with
        | .error e => .error e
        | .ok predictFn =>
          if (df.map (fun r => r.healthscore)).any (fun v => v.isNone) then
            .error .valueErrorNaNInput
          else
            let anomalies := df.filter (fun r => predictFn (r.healthscore.getD 0) == -1)
            .ok (reportRows (groupAgg anomalies))

/-! ## ModelPipeline (src/pipeline.py) -/

/-- ModelPipeline.MODEL_VERSION. -/
def MODEL_VERSION : String := "1.0.0"

/-- ModelPipeline.COMPATIBLE_VERSIONS. -/
def COMPATIBLE_VERSIONS : List String := ["1.0.0", "0.9.0"]

/-- ModelPipeline._get_model_path: the versioned artifact path. -/
def getModelPath (modelName : String) : String :=
  "models/" ++ modelName ++ "_v" ++ MODEL_VERSION ++ ".pkl"

/-- The versioned path of the market forecaster artifact. -/
def forecasterModelPath : String := getModelPath "market_forecaster"

/-- The versioned path of the maintenance predictor artifact. -/
def maintModelPath : String := getModelPath "maintenance_predictor"

/-- The version-compatibility test of _try_load_model: a payload that is a
dict carrying a version key must have it inside COMPATIBLE_VERSIONS; any
other payload passes the check. -/
def versionCheckPasses (p : Payload) : Bool :=
  match payloadVersion p with
  | none => true
  | some v => decide (v ∈ COMPATIBLE_VERSIONS)

/-- MarketForecaster.load_model(path): self.model = joblib.load(path).
Returns the deserialized payload that becomes self.model. -/
def forecasterLoadModel (fs : FS) (path : String) : Except PyErr Payload :=
  match fs path with
  | none => .error .fileNotFoundError
  | some a => joblibLoad a

/-- The validation step model_instance.is_trained() of _try_load_model.
Neither MarketForecaster nor MaintenancePredictor defines a method named
is_trained, so in Python this attribute lookup raises AttributeError no
matter what was loaded. -/
def callIsTrained (_loaded : Payload) : Except PyErr Bool :=
  .error .attributeError

/-- The call model_instance.load_model(model_path) issued by _try_load_model
on a MaintenancePredictor.  MaintenancePredictor.load_model is declared with
no path parameter, so the call raises TypeError before touching the file. -/
def callMaintLoadModelWithPath (_fs : FS) (_p : MaintenancePredictor)
    (_path : String) : Except PyErr MaintenancePredictor :=
  .error .typeError

/-- ModelPipeline._try_load_model for the market forecaster: missing file
reports failure; then, under the try block, deserialize and version-check
the artifact, reload it into the instance, and validate with is_trained;
any exception is caught and reported as a load failure. -/
def tryLoadForecasterModel (fs : FS) (modelPath : String) : Bool :=
  match fs modelPath with
  | none => false
  | some a =>
    match joblibLoad a with
    | .error _ => false
    | .ok modelData =>
      if versionCheckPasses modelData = false then false
      else
        match forecasterLoadModel fs modelPath with
        | .error _ => false
        | .ok loaded =>
          match callIsTrained loaded with
          | .error _ => false
          | .ok b => b

/-- ModelPipeline._try_load_model for the maintenance predictor: as above,
except that the load_model call itself raises TypeError (caught, load
failure). -/
def tryLoadMaintModel (fs : FS) (p : MaintenancePredictor) (modelPath : String) : Bool :=
  match fs modelPath with
  | none => false
  | some a =>
    match joblibLoad a with
    | .error _ => false
    | .ok modelData =>
      if versionCheckPasses modelData = false then false
      else
        match callMaintLoadModelWithPath fs p modelPath with
        | .error _ => false
        | .ok p2 =>
          match callIsTrained (p2.model.getD (.bundle none none)) with
          | .error _ => false
          | .ok b => b

/-- The forecaster instance as it stands after the (never successful) load
branch; only reachable if tryLoadForecasterModel returned true. -/
def loadedForecaster (fs : FS) (path : String) : MarketForecaster :=
  match fs path with
  | some (.ok (.bundle w b)) => ⟨w, b⟩
  | some (.ok (.versionedBundle _ w b)) => ⟨w, b⟩
  | _ => mkMarketForecaster

/-- ModelPipeline.initialize_forecaster: construct a fresh MarketForecaster,
attempt the load, and on failure train on the supplied market data and
persist at the versioned path.  A training exception propagates and nothing
is written. -/
def initForecaster (fitRF : List (Nat × ℚ) → Regressor) (fs : FS)
    (marketData : List PriceRow) : Except PyErr MarketForecaster × FS :=
  if tryLoadForecasterModel fs forecasterModelPath then
    (.ok (loadedForecaster fs forecasterModelPath), fs)
  else
    match trainEnsembleModels fitRF marketData with
    | .error e => (.error e, fs)
    | .ok f => (.ok f, saveForecaster f forecasterModelPath fs)

/-- ModelPipeline.initialize_maintenance_model: construct a fresh
MaintenancePredictor, attempt the load, and on failure train on the supplied
equipment data and persist at the versioned path.  A training exception
propagates and nothing is written. -/
def initMaintenanceModel (fitIF : List ℚ → MaintModel) (fs : FS)
    (equipmentData : List Reading) : Except PyErr MaintenancePredictor × FS :=
  if tryLoadMaintModel fs mkMaintenancePredictor maintModelPath then
    (.ok mkMaintenancePredictor, fs)
  else
    match trainAnomalyModel fitIF mkMaintenancePredictor equipmentData fs with
    | .error e => (.error e, fs)
    | .ok (p2, fs2) => (.ok p2, saveMaintModel p2 maintModelPath fs2)

/-! ## cleanup_old_models (src/pipeline.py)

The filename parsing of cleanup_old_models works on characters:
filename.split('_v')[-1].replace('.pkl', '').  The two scans below are the
left-to-right, non-overlapping semantics of str.split and str.replace. -/

/-- str.split('_v') on the character list of a filename. -/
def splitVSep : List Char → List (List Char)
  | [] => [[]]
  | [c] => [[c]]
  | c1 :: c2 :: rest =>
    if c1 = '_' ∧ c2 = 'v' then
      [] :: splitVSep rest
    else
      match splitVSep (c2 :: rest) with
      | s :: ss => (c1 :: s) :: ss
      | [] => [[c1]]

/-- Whether the character list contains the separator pair. -/
def hasVSep : List Char → Bool
  | [] => false
  | [_] => false
  | c1 :: c2 :: rest => if c1 = '_' ∧ c2 = 'v' then true else hasVSep (c2 :: rest)

/-- The [-1] indexing of the split result. -/
def lastChunk : List (List Char) → List Char
  | [] => []
  | [s] => s
  | _ :: s :: ss => lastChunk (s :: ss)

/-- str.replace('.pkl', ''): delete every occurrence of the four-character
pattern, scanning left to right. -/
def removePkl : List Char → List Char
  | [] => []
  | [c1] => [c1]
  | [c1, c2] => [c1, c2]
  | [c1, c2, c3] => [c1, c2, c3]
  | c1 :: c2 :: c3 :: c4 :: rest =>
    if c1 = '.' ∧ c2 = 'p' ∧ c3 = 'k' ∧ c4 = 'l' then removePkl rest
    else c1 :: removePkl (c2 :: c3 :: c4 :: rest)

/-- str.endswith('.pkl'). -/
def endsPkl (cs : List Char) : Bool :=
  match cs.reverse with
  | 'l' :: 'k' :: 'p' :: '.' :: _ => true
  | _ => false

/-- file_version = filename.split('_v')[-1].replace('.pkl', ''). -/
def parsedFileVersion (fname : String) : String :=
  ⟨removePkl (lastChunk (splitVSep fname.data))⟩

/-- Whether cleanup_old_models removes the file with this name: it must end
in .pkl and its parsed version must lie outside COMPATIBLE_VERSIONS. -/
def cleanupRemoves (fname : String) : Bool :=
  endsPkl fname.data && !(decide (parsedFileVersion fname ∈ COMPATIBLE_VERSIONS))

/-- ModelPipeline.cleanup_old_models over a directory listing: the names
that survive the scan. -/
def cleanupOldModels (files : List String) : List String :=
  files.filter (fun f => !(cleanupRemoves f))

/-- The names cleanup_old_models deletes. -/
def cleanupDeleted (files : List String) : List String :=
  files.filter (fun f => cleanupRemoves f)

/-! ## Derived definitions used in the statements -/

/-- The fitted WTI regressor produced by a successful
train_ensemble_models run: the abstract fit applied to the
(day-of-year, WTI price) training pairs. -/
def fittedWTI (fitRF : List (Nat × ℚ) → Regressor) (rows : List PriceRow) : Regressor :=
  fitRF ((rows.map (fun r => r.date.doy)).zip
    ((rows.map (fun r => r.wtiPrice)).map (fun v => v.getD 0)))

/-- The fitted Brent regressor produced by a successful
train_ensemble_models run. -/
def fittedBrent (fitRF : List (Nat × ℚ) → Regressor) (rows : List PriceRow) : Regressor :=
  fitRF ((rows.map (fun r => r.date.doy)).zip
    ((rows.map (fun r => r.brentPrice)).map (fun v => v.getD 0)))

/-- The training sample of train_anomaly_model: the health-score column
after dropna. -/
def dfX (df : List Reading) : List ℚ :=
  (df.map (fun r => r.healthscore)).reduceOption

/-- The order in which the emitted maintenance report is actually sorted:
ascending minimum health score, ties broken by ascending groupby key. -/
def reportOrderRel (a b : ReportRow) : Prop :=
  a.minScore < b.minScore ∨
    (a.minScore = b.minScore ∧
      keyLT (a.facilityId, a.equipmentId) (b.facilityId, b.equipmentId))

/-- The groupby key carried by a report row. -/
def reportKey (r : ReportRow) : Nat × Nat := (r.facilityId, r.equipmentId)

/-- Stated from the spec wording, for comparison with the code: the stable
first-occurrence order of the group keys in the input, which the spec
asserts is the tie-breaking order of the report for equal minimum scores. -/
def specFirstOccurrenceKeys (df : List Reading) : List (Nat × Nat) :=
  df.foldl (fun acc r => if rkey r ∈ acc then acc else acc ++ [rkey r]) []

/-! ## Concrete instances used by witnesses and counterexamples -/

/-- A concrete abstract RandomForest fit: a constant regressor. -/
def cFitRF : List (Nat × ℚ) → Regressor := fun _ _ => 70

/-- A concrete abstract IsolationForest fit: labels everything normal. -/
def cFitIF : List ℚ → MaintModel := fun _ _ => 1

/-- A fitted IsolationForest that flags every reading anomalous, as happens
when all presented scores are far below the training data. -/
def cAllAnomModel : MaintModel := fun _ => -1

/-- A fitted IsolationForest that flags scores below 60 as anomalous. -/
def cLowScoreModel : MaintModel := fun s => if s < 60 then -1 else 1

/-- A trained predictor holding the all-anomalous model. -/
def cTiePred : MaintenancePredictor := ⟨defaultMaintPath, some (.isoForest cAllAnomModel)⟩

/-- A trained predictor holding the low-score model. -/
def cRepPred : MaintenancePredictor := ⟨defaultMaintPath, some (.isoForest cLowScoreModel)⟩

/-- Two readings with equal health scores in two groups; the group key order
and the first-occurrence order disagree. -/
def cTieRows : List Reading := [⟨2, 1, 5, some 10⟩, ⟨1, 7, 3, some 10⟩]

/-- Readings with two anomalous groups of distinct minimum scores and one
normal reading. -/
def cRepRows : List Reading := [⟨3, 1, 10, some 50⟩, ⟨2, 1, 11, some 20⟩, ⟨9, 9, 12, some 95⟩]

/-- A two-day price series with no missing targets. -/
def cGoodRows : List PriceRow := [⟨⟨0, 1⟩, some 70, some 74⟩, ⟨⟨1, 2⟩, some 71, some 75⟩]

/-- A future date. -/
def cDates : List CalDate := [⟨2, 3⟩]

/-- A price series whose WTI column is entirely missing. -/
def cWtiMissingRows : List PriceRow := [⟨⟨0, 1⟩, none, some 74⟩]

/-- A models directory in which every path holds a corrupted artifact. -/
def cCorruptFs : FS := fun _ => some .corrupted

/-- A models directory in which every path holds a compatible versioned
bundle with both sub-models fitted. -/
def cValidArtifactFs : FS :=
  fun _ => some (.ok (.versionedBundle "1.0.0" (some (fun _ => 50)) (some (fun _ => 60))))

/-- A models directory in which every path holds a compatible versioned
fitted IsolationForest. -/
def cValidMaintFs : FS := fun _ => some (.ok (.versionedIso "1.0.0" (fun _ => 1)))

/-- A non-empty readings frame whose health scores are all missing. -/
def cAllNaNReadings : List Reading := [⟨1, 1, 0, none⟩]

/-- A non-empty readings frame with health scores present. -/
def cGoodReadings : List Reading := [⟨1, 1, 0, some 95⟩, ⟨1, 2, 1, some 10⟩]

/-- A readings frame with one missing health score. -/
def cMissingReadings : List Reading := [⟨1, 1, 0, none⟩, ⟨1, 2, 1, some 95⟩]

/-! # Helper lemmas -/

/-- The load attempt for the forecaster never succeeds: when the artifact
exists and deserializes, validation calls the undefined is_trained method,
whose AttributeError is caught and reported as a load failure. -/
theorem tryLoadForecasterModel_eq_false (fs : FS) (path : String) :
    tryLoadForecasterModel fs path = false := by
  unfold tryLoadForecasterModel
  cases hp : fs path with
  | none => rfl
  | some a =>
    cases a with
    | corrupted => rfl
    | ok p =>
      by_cases hv : versionCheckPasses p = false
      · simp [joblibLoad, hv]
      · simp [joblibLoad, hv, forecasterLoadModel, hp, callIsTrained]

/-- The load attempt for the maintenance predictor never succeeds: the
pipeline passes a path argument to the zero-argument load_model, whose
TypeError is caught and reported as a load failure. -/
theorem tryLoadMaintModel_eq_false (fs : FS) (p : MaintenancePredictor)
    (path : String) : tryLoadMaintModel fs p path = false := by
  unfold tryLoadMaintModel
  cases hp : fs path with
  | none => rfl
  | some a =>
    cases a with
    | corrupted => rfl
    | ok q =>
      by_cases hv : versionCheckPasses q = false
      · simp [joblibLoad, hv]
      · simp [joblibLoad, hv, callMaintLoadModelWithPath]

/-- train_ensemble_models raises its ValueError whenever the feature set is
empty or either target column is entirely missing. -/
theorem trainEnsembleModels_insufficient (fitRF : List (Nat × ℚ) → Regressor)
    (rows : List PriceRow)
    (h : rows = [] ∨ (∀ r ∈ rows, r.wtiPrice = none) ∨ (∀ r ∈ rows, r.brentPrice = none)) :
    trainEnsembleModels fitRF rows = .error .valueErrorInsufficientData := by
  unfold trainEnsembleModels
  rcases h with rfl | h | h
  · rfl
  · have hall : (rows.map (fun r => r.wtiPrice)).all (fun v => v.isNone) = true := by
      rw [List.all_eq_true]
      intro v hv
      rw [List.mem_map] at hv
      obtain ⟨r, hr, rfl⟩ := hv
      rw [h r hr]
      rfl
    simp [hall]
  · have hall : (rows.map (fun r => r.brentPrice)).all (fun v => v.isNone) = true := by
      rw [List.all_eq_true]
      intro v hv
      rw [List.mem_map] at hv
      obtain ⟨r, hr, rfl⟩ := hv
      rw [h r hr]
      rfl
    simp [hall]

/-- train_ensemble_models succeeds on a non-empty series with no missing
targets, producing the two fitted regressors. -/
theorem trainEnsembleModels_ok (fitRF : List (Nat × ℚ) → Regressor)
    (rows : List PriceRow) (h1 : rows ≠ [])
    (h2 : ∀ r ∈ rows, r.wtiPrice.isSome ∧ r.brentPrice.isSome) :
    trainEnsembleModels fitRF rows =
      .ok ⟨some (fittedWTI fitRF rows), some (fittedBrent fitRF rows)⟩ := by
  have hmem1 : ∀ v ∈ rows.map (fun r => r.wtiPrice), v.isNone = false := by
    intro v hv
    rw [List.mem_map] at hv
    obtain ⟨r, hr, rfl⟩ := hv
    have := (h2 r hr).1
    cases hx : r.wtiPrice with
    | none => rw [hx] at this; exact absurd this (by simp)
    | some q => rfl
  have hmem2 : ∀ v ∈ rows.map (fun r => r.brentPrice), v.isNone = false := by
    intro v hv
    rw [List.mem_map] at hv
    obtain ⟨r, hr, rfl⟩ := hv
    have := (h2 r hr).2
    cases hx : r.brentPrice with
    | none => rw [hx] at this; exact absurd this (by simp)
    | some q => rfl
  obtain ⟨r0, hr0⟩ := List.exists_mem_of_ne_nil rows h1
  have hXne : (rows.map (fun r => r.date.doy)).isEmpty = false := by
    rw [List.isEmpty_eq_false]
    intro hmap
    exact h1 (List.map_eq_nil_iff.mp hmap)
  have hall1 : (rows.map (fun r => r.wtiPrice)).all (fun v => v.isNone) = false := by
    rw [List.all_eq_false]
    exact ⟨r0.wtiPrice, List.mem_map_of_mem _ hr0,
      by rw [hmem1 r0.wtiPrice (List.mem_map_of_mem _ hr0)]; simp⟩
  have hall2 : (rows.map (fun r => r.brentPrice)).all (fun v => v.isNone) = false := by
    rw [List.all_eq_false]
    exact ⟨r0.brentPrice, List.mem_map_of_mem _ hr0,
      by rw [hmem2 r0.brentPrice (List.mem_map_of_mem _ hr0)]; simp⟩
  have hany1 : (rows.map (fun r => r.wtiPrice)).any (fun v => v.isNone) = false := by
    rw [List.any_eq_false]
    intro v hv
    rw [hmem1 v hv]
    simp
  have hany2 : (rows.map (fun r => r.brentPrice)).any (fun v => v.isNone) = false := by
    rw [List.any_eq_false]
    intro v hv
    rw [hmem2 v hv]
    simp
  have hfb : ¬((false : Bool) = true) := by simp
  have e1 : sklearnFit fitRF (rows.map (fun r => r.date.doy))
      (rows.map (fun r => r.wtiPrice)) = .ok (fittedWTI fitRF rows) := by
    unfold sklearnFit
    rw [hany1, if_neg hfb]
    rfl
  have e2 : sklearnFit fitRF (rows.map (fun r => r.date.doy))
      (rows.map (fun r => r.brentPrice)) = .ok (fittedBrent fitRF rows) := by
    unfold sklearnFit
    rw [hany2, if_neg hfb]
    rfl
  have hcond : ((rows.map (fun r => r.date.doy)).isEmpty
      || (rows.map (fun r => r.wtiPrice)).all (fun v => v.isNone)
      || (rows.map (fun r => r.brentPrice)).all (fun v => v.isNone)) = false := by
    rw [hXne, hall1, hall2]
    rfl
  simp only [trainEnsembleModels]
  rw [hcond, if_neg hfb, e1, e2]

/-- train_anomaly_model on a non-empty frame with at least one present
health score fits the IsolationForest on the dropna column and persists the
fitted model to the instance model path. -/
theorem trainAnomalyModel_ok (fitIF : List ℚ → MaintModel)
    (p : MaintenancePredictor) (df : List Reading) (fs : FS)
    (h1 : df ≠ []) (h2 : ∃ r ∈ df, r.healthscore.isSome) :
    trainAnomalyModel fitIF p df fs =
      .ok ({ p with model := some (.isoForest (fitIF (dfX df))) },
           FS.update fs p.modelPath (.ok (.isoForest (fitIF (dfX df))))) := by
  have hdf : df.isEmpty = false := List.isEmpty_eq_false.mpr h1
  have hX : (dfX df).isEmpty = false := by
    obtain ⟨r, hr, hs⟩ := h2
    obtain ⟨q, hq⟩ := Option.isSome_iff_exists.mp hs
    rw [List.isEmpty_eq_false]
    intro hnil
    have hqmem : q ∈ dfX df :=
      List.reduceOption_mem_iff.mpr (by rw [← hq]; exact List.mem_map_of_mem _ hr)
    rw [hnil] at hqmem
    exact absurd hqmem (List.not_mem_nil q)
  unfold trainAnomalyModel
  rw [hdf]
  simp only [Bool.false_eq_true, if_false]
  rw [show ((df.map (fun r => r.healthscore)).reduceOption) = dfX df from rfl, hX]
  simp [saveMaintModel]

/-! # Claims C1, C2, C5, C6, C7, C8, C9, C10 -/

/-- Claim C1 (code bug): the spec requires that a persisted artifact which
exists, deserializes, carries a compatible version tag and holds fitted
sub-models makes the load attempt return true and the pipeline return the
loaded model without retraining.  The code never does this: validation calls
the undefined is_trained method (AttributeError, caught as failure), and for
the maintenance predictor already the load_model(path) call has the wrong
arity (TypeError).  The load attempt therefore returns false on exactly the
inputs the claim says it returns true on, and the pipeline always reaches
the training branch, even for an empty data frame with a pristine
artifact. -/
theorem claim_C1_load_never_succeeds :
    (∀ (fs : FS) (path v : String) (gw gb : Regressor),
        fs path = some (.ok (.versionedBundle v (some gw) (some gb))) →
        v ∈ COMPATIBLE_VERSIONS →
        tryLoadForecasterModel fs path = false)
  ∧ (∀ (fs : FS) (p : MaintenancePredictor) (path v : String) (m : MaintModel),
        fs path = some (.ok (.versionedIso v m)) →
        v ∈ COMPATIBLE_VERSIONS →
        tryLoadMaintModel fs p path = false)
  ∧ (∀ (fitRF : List (Nat × ℚ) → Regressor) (fs : FS),
        initForecaster fitRF fs [] = (.error .valueErrorInsufficientData, fs)) := by
  refine ⟨fun fs path v gw gb _ _ => tryLoadForecasterModel_eq_false fs path,
    fun fs p path v m _ _ => tryLoadMaintModel_eq_false fs p path,
    fun fitRF fs => ?_⟩
  unfold initForecaster
  rw [tryLoadForecasterModel_eq_false, if_neg (by simp),
    trainEnsembleModels_insufficient fitRF [] (Or.inl rfl)]

/-- Claim C1 witness: a concrete directory holding, at the versioned path, a
compatible versioned artifact with fitted sub-models, on which the load
attempt still reports failure. -/
theorem claim_C1_witness :
    cValidArtifactFs forecasterModelPath
      = some (.ok (.versionedBundle "1.0.0" (some (fun _ => 50)) (some (fun _ => 60))))
  ∧ ("1.0.0" : String) ∈ COMPATIBLE_VERSIONS
  ∧ tryLoadForecasterModel cValidArtifactFs forecasterModelPath = false
  ∧ cValidMaintFs maintModelPath = some (.ok (.versionedIso "1.0.0" (fun _ => 1)))
  ∧ tryLoadMaintModel cValidMaintFs mkMaintenancePredictor maintModelPath = false :=
  ⟨rfl, by decide,
   claim_C1_load_never_succeeds.1 cValidArtifactFs forecasterModelPath "1.0.0"
     (fun _ => 50) (fun _ => 60) rfl (by decide),
   rfl,
   claim_C1_load_never_succeeds.2.1 cValidMaintFs mkMaintenancePredictor
     maintModelPath "1.0.0" (fun _ => 1) rfl (by decide)⟩

/-- Claim C2: with a corrupted artifact at each versioned path, the
deserialization exception is caught inside the load attempt (which reports
failure), both initializers train fresh models from the supplied data,
persist them at the versioned paths, and return them; no exception reaches
the caller. -/
theorem claim_C2_corrupted_artifact_falls_back_to_training
    (fitRF : List (Nat × ℚ) → Regressor) (fitIF : List ℚ → MaintModel)
    (fs : FS) (rowsM : List PriceRow) (rowsE : List Reading)
    (hc1 : fs forecasterModelPath = some .corrupted)
    (hc2 : fs maintModelPath = some .corrupted)
    (hm1 : rowsM ≠ []) (hm2 : ∀ r ∈ rowsM, r.wtiPrice.isSome ∧ r.brentPrice.isSome)
    (he1 : rowsE ≠ []) (he2 : ∃ r ∈ rowsE, r.healthscore.isSome) :
    (tryLoadForecasterModel fs forecasterModelPath = false
     ∧ initForecaster fitRF fs rowsM =
         (.ok ⟨some (fittedWTI fitRF rowsM), some (fittedBrent fitRF rowsM)⟩,
          saveForecaster ⟨some (fittedWTI fitRF rowsM), some (fittedBrent fitRF rowsM)⟩
            forecasterModelPath fs))
  ∧ (tryLoadMaintModel fs mkMaintenancePredictor maintModelPath = false
     ∧ ∃ fs2, initMaintenanceModel fitIF fs rowsE =
           (.ok ⟨defaultMaintPath, some (.isoForest (fitIF (dfX rowsE)))⟩, fs2)
         ∧ fs2 maintModelPath = some (.ok (.isoForest (fitIF (dfX rowsE))))) := by
  refine ⟨⟨tryLoadForecasterModel_eq_false fs forecasterModelPath, ?_⟩,
    ⟨tryLoadMaintModel_eq_false fs mkMaintenancePredictor maintModelPath, ?_⟩⟩
  · unfold initForecaster
    rw [tryLoadForecasterModel_eq_false, if_neg (by simp),
      trainEnsembleModels_ok fitRF rowsM hm1 hm2]
  · refine ⟨FS.update (FS.update fs defaultMaintPath
      (.ok (.isoForest (fitIF (dfX rowsE))))) maintModelPath
      (.ok (.isoForest (fitIF (dfX rowsE)))), ?_, ?_⟩
    · unfold initMaintenanceModel
      rw [tryLoadMaintModel_eq_false, if_neg (by simp),
        trainAnomalyModel_ok fitIF mkMaintenancePredictor rowsE fs he1 he2]
      rfl
    · simp [FS.update]

/-- Claim C2 witness: the concrete all-corrupted directory with concrete
trainable data. -/
theorem claim_C2_witness :
    cCorruptFs forecasterModelPath = some .corrupted
  ∧ cGoodRows ≠ []
  ∧ cGoodReadings ≠ []
  ∧ tryLoadForecasterModel cCorruptFs forecasterModelPath = false
  ∧ (∃ fs2, initMaintenanceModel cFitIF cCorruptFs cGoodReadings =
        (.ok ⟨defaultMaintPath, some (.isoForest (cFitIF (dfX cGoodReadings)))⟩, fs2)
      ∧ fs2 maintModelPath = some (.ok (.isoForest (cFitIF (dfX cGoodReadings))))) :=
  ⟨rfl, by decide, by decide,
   (claim_C2_corrupted_artifact_falls_back_to_training cFitRF cFitIF cCorruptFs
     cGoodRows cGoodReadings rfl rfl (by decide) (by decide) (by decide) (by decide)).1.1,
   (claim_C2_corrupted_artifact_falls_back_to_training cFitRF cFitIF cCorruptFs
     cGoodRows cGoodReadings rfl rfl (by decide) (by decide) (by decide) (by decide)).2.2⟩

/-- Claim C5: training on an empty feature set or with either target column
entirely missing raises the insufficiency error before any fitting
happens; no fitted model is produced. -/
theorem claim_C5_train_raises_eagerly (fitRF : List (Nat × ℚ) → Regressor)
    (rows : List PriceRow)
    (h : rows = [] ∨ (∀ r ∈ rows, r.wtiPrice = none) ∨ (∀ r ∈ rows, r.brentPrice = none)) :
    trainEnsembleModels fitRF rows = .error .valueErrorInsufficientData :=
  trainEnsembleModels_insufficient fitRF rows h

/-- Claim C5 witness: a one-row series whose WTI column is entirely
missing. -/
theorem claim_C5_witness :
    (∀ r ∈ cWtiMissingRows, r.wtiPrice = none)
  ∧ trainEnsembleModels cFitRF cWtiMissingRows = .error .valueErrorInsufficientData :=
  ⟨by decide, claim_C5_train_raises_eagerly cFitRF cWtiMissingRows
    (Or.inr (Or.inl (by decide)))⟩

/-- Claim C6: when one target column is entirely missing, the training
exception propagates out of initialize_forecaster and the persisted state is
returned unchanged: nothing is written at the versioned path or anywhere
else. -/
theorem claim_C6_failed_training_persists_nothing
    (fitRF : List (Nat × ℚ) → Regressor) (fs : FS) (rows : List PriceRow)
    (h : (∀ r ∈ rows, r.wtiPrice = none) ∨ (∀ r ∈ rows, r.brentPrice = none)) :
    initForecaster fitRF fs rows = (.error .valueErrorInsufficientData, fs) := by
  unfold initForecaster
  rw [tryLoadForecasterModel_eq_false, if_neg (by simp),
    trainEnsembleModels_insufficient fitRF rows (Or.inr h)]

/-- Claim C6 witness: concrete all-missing WTI data over the empty
directory; the directory comes back unchanged. -/
theorem claim_C6_witness :
    (∀ r ∈ cWtiMissingRows, r.wtiPrice = none)
  ∧ initForecaster cFitRF fsEmpty cWtiMissingRows
      = (.error .valueErrorInsufficientData, fsEmpty) :=
  ⟨by decide, claim_C6_failed_training_persists_nothing cFitRF fsEmpty
    cWtiMissingRows (Or.inl (by decide))⟩

/-- Claim C7: on a non-empty series with no missing targets, train followed
by predict yields exactly one row per requested date, in input order, each
carrying one WTI and one Brent estimate; and the whole run is a fixed
function of its inputs (the random_state=42 seed makes the real fit
deterministic, which the embedding realizes by fitRF being a function), so
two runs on the same inputs coincide. -/
theorem claim_C7_predict_shape_and_determinism
    (fitRF : List (Nat × ℚ) → Regressor) (rows : List PriceRow)
    (dates : List CalDate) (h1 : rows ≠ [])
    (h2 : ∀ r ∈ rows, r.wtiPrice.isSome ∧ r.brentPrice.isSome) :
    trainThenPredict fitRF rows dates =
      .ok (dates.map (fun d => ⟨d, fittedWTI fitRF rows d.doy, fittedBrent fitRF rows d.doy⟩))
  ∧ (dates.map (fun d =>
      (⟨d, fittedWTI fitRF rows d.doy, fittedBrent fitRF rows d.doy⟩ : PredRow))).map
        PredRow.date = dates
  ∧ (dates.map (fun d =>
      (⟨d, fittedWTI fitRF rows d.doy, fittedBrent fitRF rows d.doy⟩ : PredRow))).length
        = dates.length
  ∧ trainThenPredict fitRF rows dates = trainThenPredict fitRF rows dates := by
  refine ⟨?_, ?_, by simp, rfl⟩
  · unfold trainThenPredict
    rw [trainEnsembleModels_ok fitRF rows h1 h2]
    rfl
  · simp [List.map_map]
    exact List.map_id dates

/-- Claim C7 witness: the two-day series of the spec scenario and one future
date. -/
theorem claim_C7_witness :
    cGoodRows ≠ []
  ∧ trainThenPredict cFitRF cGoodRows cDates =
      .ok (cDates.map (fun d =>
        ⟨d, fittedWTI cFitRF cGoodRows d.doy, fittedBrent cFitRF cGoodRows d.doy⟩)) :=
  ⟨by decide, (claim_C7_predict_shape_and_determinism cFitRF cGoodRows cDates
    (by decide) (by decide)).1⟩

/-- Claim C8: predict_anomalies on an untrained instance with no artifact at
its model path returns, without raising, the all-normal label series of the
input length. -/
theorem claim_C8_untrained_predict_all_normal (fs : FS)
    (p : MaintenancePredictor) (df : List Reading)
    (h1 : p.model = none) (h2 : fs p.modelPath = none) (h3 : df ≠ []) :
    predictAnomalies fs p df = .ok (List.replicate df.length 1) := by
  unfold predictAnomalies
  rw [h1]
  simp [maintLoadModelSelf, h2, h1]

/-- Claim C8 witness: a fresh predictor over the empty directory with two
readings. -/
theorem claim_C8_witness :
    mkMaintenancePredictor.model = none
  ∧ fsEmpty mkMaintenancePredictor.modelPath = none
  ∧ cGoodReadings ≠ []
  ∧ predictAnomalies fsEmpty mkMaintenancePredictor cGoodReadings
      = .ok (List.replicate cGoodReadings.length 1) :=
  ⟨rfl, rfl, by decide,
   claim_C8_untrained_predict_all_normal fsEmpty mkMaintenancePredictor
     cGoodReadings rfl rfl (by decide)⟩

/-- Claim C9: with a trained model present, predict_anomalies fills every
missing health score with 0 before classification, so a reading with a
missing score is labelled exactly as a reading with score 0; no row is
skipped and nothing raises. -/
theorem claim_C9_missing_health_filled_zero (fs : FS)
    (p : MaintenancePredictor) (df : List Reading) (m : MaintModel)
    (h : p.model = some (Payload.isoForest m)) :
    predictAnomalies fs p df = .ok (df.map (fun r => m (r.healthscore.getD 0)))
  ∧ ∀ r ∈ df, r.healthscore = none → m (r.healthscore.getD 0) = m 0 := by
  constructor
  · unfold predictAnomalies
    cases df with
    | nil => simp [payloadPredictAttr, h]
    | cons r df' => simp [payloadPredictAttr, h]
  · intro r _ hr
    rw [hr]
    rfl

/-- Claim C9 witness: the low-score model over a frame whose first reading
has a missing health score; that reading is classified at score 0 and
flagged anomalous. -/
theorem claim_C9_witness :
    cRepPred.model = some (Payload.isoForest cLowScoreModel)
  ∧ predictAnomalies fsEmpty cRepPred cMissingReadings
      = .ok (cMissingReadings.map (fun r => cLowScoreModel (r.healthscore.getD 0)))
  ∧ cLowScoreModel 0 = -1 :=
  ⟨rfl,
   (claim_C9_missing_health_filled_zero fsEmpty cRepPred cMissingReadings
     cLowScoreModel rfl).1,
   by decide⟩

/-- Claim C10 counterexample: a non-empty readings frame whose health scores
are all missing makes the scikit-learn fit raise (the dropna leaves zero
samples), so train_anomaly_model persists nothing, contradicting the claim
that every non-empty input leads to a persisted model; the pipeline
initializer propagates the error with the directory unchanged. -/
theorem claim_C10_counterexample :
    cAllNaNReadings ≠ []
  ∧ trainAnomalyModel cFitIF mkMaintenancePredictor cAllNaNReadings fsEmpty
      = .error .valueErrorEmptyFit
  ∧ initMaintenanceModel cFitIF fsEmpty cAllNaNReadings
      = (.error .valueErrorEmptyFit, fsEmpty) :=
  ⟨by decide, rfl, rfl⟩

/-- Claim C10 as amended: for every non-empty readings input with at least
one present health score, train_anomaly_model itself persists the fitted
model to the instance model path models/maintenance_model.pkl as a side
effect, and a pipeline training cycle therefore writes the model twice, at
that unversioned default path and at the versioned artifact path. -/
theorem claim_C10_train_persists_default_and_versioned
    (fitIF : List ℚ → MaintModel) (fs : FS) (rowsE : List Reading)
    (h1 : rowsE ≠ []) (h2 : ∃ r ∈ rowsE, r.healthscore.isSome) :
    trainAnomalyModel fitIF mkMaintenancePredictor rowsE fs =
      .ok (⟨defaultMaintPath, some (.isoForest (fitIF (dfX rowsE)))⟩,
           FS.update fs defaultMaintPath (.ok (.isoForest (fitIF (dfX rowsE)))))
  ∧ (initMaintenanceModel fitIF fs rowsE).2 defaultMaintPath
      = some (.ok (.isoForest (fitIF (dfX rowsE))))
  ∧ (initMaintenanceModel fitIF fs rowsE).2 maintModelPath
      = some (.ok (.isoForest (fitIF (dfX rowsE))))
  ∧ defaultMaintPath ≠ maintModelPath := by
  have htr := trainAnomalyModel_ok fitIF mkMaintenancePredictor rowsE fs h1 h2
  have hne : defaultMaintPath ≠ maintModelPath := by decide
  refine ⟨htr, ?_, ?_, hne⟩
  · unfold initMaintenanceModel
    rw [tryLoadMaintModel_eq_false, if_neg (by simp), htr]
    simp [saveMaintModel, FS.update, hne, mkMaintenancePredictor]
  · unfold initMaintenanceModel
    rw [tryLoadMaintModel_eq_false, if_neg (by simp), htr]
    simp [saveMaintModel, FS.update]

/-- Claim C10 witness: concrete readings with present health scores over the
empty directory; both paths end up holding the fitted model. -/
theorem claim_C10_witness :
    cGoodReadings ≠ []
  ∧ (initMaintenanceModel cFitIF fsEmpty cGoodReadings).2 defaultMaintPath
      = some (.ok (.isoForest (cFitIF (dfX cGoodReadings))))
  ∧ (initMaintenanceModel cFitIF fsEmpty cGoodReadings).2 maintModelPath
      = some (.ok (.isoForest (cFitIF (dfX cGoodReadings)))) :=
  ⟨by decide,
   (claim_C10_train_persists_default_and_versioned cFitIF fsEmpty cGoodReadings
     (by decide) (by decide)).2.1,
   (claim_C10_train_persists_default_and_versioned cFitIF fsEmpty cGoodReadings
     (by decide) (by decide)).2.2.1⟩


/-! # Filename parsing lemmas for cleanup_old_models -/

/-- One-step unfolding of hasVSep on a two-or-more character list. -/
theorem hasVSep_cons2 (c1 c2 : Char) (rest : List Char) :
    hasVSep (c1 :: c2 :: rest)
      = (if c1 = '_' ∧ c2 = 'v' then true else hasVSep (c2 :: rest)) := rfl

/-- One-step unfolding of splitVSep on a two-or-more character list. -/
theorem splitVSep_cons2 (c1 c2 : Char) (rest : List Char) :
    splitVSep (c1 :: c2 :: rest)
      = (if c1 = '_' ∧ c2 = 'v' then [] :: splitVSep rest
         else
           match splitVSep (c2 :: rest) with
           | s :: ss => (c1 :: s) :: ss
           | [] => [[c1]]) := rfl

/-- A string containing the separator pair registers it. -/
theorem hasVSep_append_sep : ∀ (xs ys : List Char),
    hasVSep (xs ++ '_' :: 'v' :: ys) = true
  | [], ys => by
    show hasVSep ('_' :: 'v' :: ys) = true
    rw [hasVSep_cons2, if_pos ⟨rfl, rfl⟩]
  | [x], ys => by
    show hasVSep (x :: '_' :: 'v' :: ys) = true
    rw [hasVSep_cons2]
    by_cases hx : x = '_' ∧ '_' = 'v'
    · rw [if_pos hx]
    · rw [if_neg hx, hasVSep_cons2, if_pos ⟨rfl, rfl⟩]
  | x1 :: x2 :: xs', ys => by
    show hasVSep (x1 :: x2 :: (xs' ++ '_' :: 'v' :: ys)) = true
    rw [hasVSep_cons2]
    by_cases hx : x1 = '_' ∧ x2 = 'v'
    · rw [if_pos hx]
    · rw [if_neg hx]
      exact hasVSep_append_sep (x2 :: xs') ys

/-- str.split never yields an empty chunk list. -/
theorem splitVSep_ne_nil : ∀ cs : List Char, splitVSep cs ≠ []
  | [] => by
    rw [show splitVSep ([] : List Char) = [[]] from rfl]
    simp
  | [c] => by
    rw [show splitVSep [c] = [[c]] from rfl]
    simp
  | c1 :: c2 :: rest => by
    rw [splitVSep_cons2]
    by_cases hx : c1 = '_' ∧ c2 = 'v'
    · rw [if_pos hx]
      simp
    · rw [if_neg hx]
      cases hs : splitVSep (c2 :: rest) with
      | nil => exact absurd hs (splitVSep_ne_nil (c2 :: rest))
      | cons s ss => simp

/-- A string without the separator pair is a single chunk. -/
theorem splitVSep_no_sep : ∀ cs : List Char, hasVSep cs = false → splitVSep cs = [cs]
  | [], _ => rfl
  | [c], _ => rfl
  | c1 :: c2 :: rest, h => by
    rw [hasVSep_cons2] at h
    have hx : ¬(c1 = '_' ∧ c2 = 'v') := by
      intro hx
      rw [if_pos hx] at h
      exact absurd h (by simp)
    rw [if_neg hx] at h
    rw [splitVSep_cons2, if_neg hx, splitVSep_no_sep (c2 :: rest) h]

/-- A string with the separator pair splits into two or more chunks. -/
theorem splitVSep_length_ge_two : ∀ cs : List Char,
    hasVSep cs = true → 2 ≤ (splitVSep cs).length
  | [], h => by exact absurd h (by simp [hasVSep])
  | [c], h => by exact absurd h (by simp [hasVSep])
  | c1 :: c2 :: rest, h => by
    rw [hasVSep_cons2] at h
    rw [splitVSep_cons2]
    by_cases hx : c1 = '_' ∧ c2 = 'v'
    · rw [if_pos hx]
      have h1 : 0 < (splitVSep rest).length :=
        List.length_pos.mpr (splitVSep_ne_nil rest)
      simp only [List.length_cons]
      omega
    · rw [if_neg hx] at h
      rw [if_neg hx]
      cases hs : splitVSep (c2 :: rest) with
      | nil => exact absurd hs (splitVSep_ne_nil _)
      | cons s ss =>
        have IH := splitVSep_length_ge_two (c2 :: rest) h
        rw [hs] at IH
        simp only [List.length_cons] at IH ⊢
        omega

/-- The last chunk ignores a leading chunk when another follows. -/
theorem lastChunk_cons_cons (a s : List Char) (ss : List (List Char)) :
    lastChunk (a :: s :: ss) = lastChunk (s :: ss) := rfl

/-- The [-1] chunk after the last separator: when the tail holds no further
separator pair, the split of prefix-then-separator-then-tail ends in the
tail. -/
theorem splitVSep_append_sep : ∀ (xs ys : List Char), hasVSep ys = false →
    lastChunk (splitVSep (xs ++ '_' :: 'v' :: ys)) = ys
  | [], ys, h => by
    show lastChunk (splitVSep ('_' :: 'v' :: ys)) = ys
    rw [splitVSep_cons2, if_pos ⟨rfl, rfl⟩, splitVSep_no_sep ys h]
    rfl
  | [x], ys, h => by
    show lastChunk (splitVSep (x :: '_' :: 'v' :: ys)) = ys
    rw [splitVSep_cons2]
    by_cases hx : x = '_' ∧ '_' = 'v'
    · exact absurd hx.2 (by decide)
    · rw [if_neg hx, splitVSep_cons2, if_pos ⟨rfl, rfl⟩, splitVSep_no_sep ys h]
      rfl
  | x1 :: x2 :: xs', ys, h => by
    show lastChunk (splitVSep (x1 :: x2 :: (xs' ++ '_' :: 'v' :: ys))) = ys
    rw [splitVSep_cons2]
    by_cases hx : x1 = '_' ∧ x2 = 'v'
    · rw [if_pos hx]
      have hrec := splitVSep_append_sep xs' ys h
      cases hs : splitVSep (xs' ++ '_' :: 'v' :: ys) with
      | nil => exact absurd hs (splitVSep_ne_nil _)
      | cons s ss =>
        rw [hs] at hrec
        rw [lastChunk_cons_cons]
        exact hrec
    · rw [if_neg hx]
      have hrec : lastChunk (splitVSep (x2 :: (xs' ++ '_' :: 'v' :: ys))) = ys :=
        splitVSep_append_sep (x2 :: xs') ys h
      have hsep : hasVSep (x2 :: (xs' ++ '_' :: 'v' :: ys)) = true :=
        hasVSep_append_sep (x2 :: xs') ys
      cases hs : splitVSep (x2 :: (xs' ++ '_' :: 'v' :: ys)) with
      | nil => exact absurd hs (splitVSep_ne_nil _)
      | cons s ss =>
        have hlen := splitVSep_length_ge_two (x2 :: (xs' ++ '_' :: 'v' :: ys)) hsep
        rw [hs] at hlen hrec
        cases ss with
        | nil => simp at hlen
        | cons s2 ss' =>
          show lastChunk ((x1 :: s) :: s2 :: ss') = ys
          rw [lastChunk_cons_cons]
          rw [lastChunk_cons_cons] at hrec
          exact hrec

/-- One-step unfolding of removePkl on a four-or-more character list. -/
theorem removePkl_cons4 (c1 c2 c3 c4 : Char) (rest : List Char) :
    removePkl (c1 :: c2 :: c3 :: c4 :: rest)
      = (if c1 = '.' ∧ c2 = 'p' ∧ c3 = 'k' ∧ c4 = 'l' then removePkl rest
         else c1 :: removePkl (c2 :: c3 :: c4 :: rest)) := rfl

/-- Removing .pkl occurrences from a p-free string followed by one final
.pkl leaves the string. -/
theorem removePkl_append_pkl : ∀ ys : List Char, 'p' ∉ ys →
    removePkl (ys ++ '.' :: 'p' :: 'k' :: 'l' :: []) = ys
  | [], _ => by decide
  | [a], _ => by
    show removePkl (a :: '.' :: 'p' :: 'k' :: 'l' :: []) = [a]
    rw [removePkl_cons4]
    have hx : ¬(a = '.' ∧ '.' = 'p' ∧ 'p' = 'k' ∧ 'k' = 'l') :=
      fun hx => absurd hx.2.1 (by decide)
    rw [if_neg hx, show removePkl ('.' :: 'p' :: 'k' :: 'l' :: []) = [] from by decide]
  | [a, b], h => by
    show removePkl (a :: b :: '.' :: 'p' :: 'k' :: 'l' :: []) = [a, b]
    rw [removePkl_cons4]
    have hb : ¬(b = 'p') := fun hb => h (by rw [hb]; simp)
    have hx : ¬(a = '.' ∧ b = 'p' ∧ '.' = 'k' ∧ 'p' = 'l') :=
      fun hx => hb hx.2.1
    rw [if_neg hx]
    exact congrArg (fun l => a :: l)
      (removePkl_append_pkl [b] (by intro hm; simp at hm; exact hb hm.symm))
  | [a, b, c], h => by
    show removePkl (a :: b :: c :: '.' :: 'p' :: 'k' :: 'l' :: []) = [a, b, c]
    rw [removePkl_cons4]
    have hb : ¬(b = 'p') := fun hb => h (by rw [hb]; simp)
    have hx : ¬(a = '.' ∧ b = 'p' ∧ c = 'k' ∧ '.' = 'l') :=
      fun hx => hb hx.2.1
    rw [if_neg hx]
    exact congrArg (fun l => a :: l)
      (removePkl_append_pkl [b, c] (by
        intro hm
        simp at hm
        rcases hm with hm | hm
        · exact hb hm.symm
        · exact h (by rw [← hm]; simp)))
  | a :: b :: c :: d :: t, h => by
    show removePkl (a :: b :: c :: d :: (t ++ '.' :: 'p' :: 'k' :: 'l' :: []))
      = a :: b :: c :: d :: t
    rw [removePkl_cons4]
    have hb : ¬(b = 'p') := by
      intro hb
      exact h (by rw [hb]; simp)
    have hx : ¬(a = '.' ∧ b = 'p' ∧ c = 'k' ∧ d = 'l') := fun hx => hb hx.2.1
    rw [if_neg hx]
    exact congrArg (fun l => a :: l)
      (removePkl_append_pkl (b :: c :: d :: t)
        (fun hm => h (List.mem_cons_of_mem a hm)))

/-- A name built by appending .pkl ends with .pkl. -/
theorem endsPkl_append_pkl (xs : List Char) :
    endsPkl (xs ++ '.' :: 'p' :: 'k' :: 'l' :: []) = true := by
  unfold endsPkl
  rw [List.reverse_append]
  rfl

/-- A string without underscores holds no separator pair. -/
theorem hasVSep_eq_false_of_no_underscore : ∀ cs : List Char,
    '_' ∉ cs → hasVSep cs = false
  | [], _ => rfl
  | [c], _ => rfl
  | c1 :: c2 :: rest, h => by
    rw [hasVSep_cons2]
    rw [if_neg (fun (hx : c1 = '_' ∧ c2 = 'v') =>
      h (hx.1 ▸ List.mem_cons_self c1 (c2 :: rest)))]
    exact hasVSep_eq_false_of_no_underscore (c2 :: rest)
      (fun hm => h (List.mem_cons_of_mem c1 hm))

/-! # Claim C4 -/

/-- Claim C4 counterexample: maintenance_model.pkl, the very file the
maintenance predictor training writes, carries no version separator at all
(its split has a single chunk), yet cleanup_old_models deletes it, so the
deleted set is not exactly the files whose encoded version tag lies outside
the compatible set; a compatible versioned artifact in the same directory
survives. -/
theorem claim_C4_counterexample :
    (splitVSep "maintenance_model.pkl".data).length = 1
  ∧ cleanupRemoves "maintenance_model.pkl" = true
  ∧ ("maintenance_model.pkl" : String)
      ∈ cleanupDeleted ["maintenance_model.pkl", "maintenance_predictor_v1.0.0.pkl"]
  ∧ cleanupRemoves "maintenance_predictor_v1.0.0.pkl" = false
  ∧ cleanupOldModels ["maintenance_model.pkl", "maintenance_predictor_v1.0.0.pkl"]
      = ["maintenance_predictor_v1.0.0.pkl"] :=
  ⟨by decide, by decide, by decide, by decide, by decide⟩

/-- Claim C4 as amended: cleanup_old_models deletes exactly the .pkl files
whose parsed version, the text after the last version separator with .pkl
occurrences removed, lies outside the compatible set.  For well-formed
versioned artifact names, stem then separator then a version of digits and
dots then .pkl, the parsed version is the version itself, so such a file is
deleted exactly when its version is incompatible; files not ending in .pkl
are never touched.  Unversioned .pkl files, whose whole base name is their
parsed version, are deleted as the counterexample shows. -/
theorem claim_C4_cleanup_by_parsed_version (stem ver : List Char)
    (hver : ∀ c ∈ ver, c.isDigit ∨ c = '.') :
    cleanupRemoves ⟨stem ++ '_' :: 'v' :: (ver ++ '.' :: 'p' :: 'k' :: 'l' :: [])⟩
      = !(decide ((⟨ver⟩ : String) ∈ COMPATIBLE_VERSIONS))
  ∧ parsedFileVersion ⟨stem ++ '_' :: 'v' :: (ver ++ '.' :: 'p' :: 'k' :: 'l' :: [])⟩
      = ⟨ver⟩
  ∧ (∀ f : String, endsPkl f.data = false → cleanupRemoves f = false) := by
  have hp : 'p' ∉ ver := by
    intro hmem
    rcases hver 'p' hmem with hd | hdot
    · exact absurd hd (by decide)
    · exact absurd hdot (by decide)
  have hu : hasVSep (ver ++ '.' :: 'p' :: 'k' :: 'l' :: []) = false := by
    apply hasVSep_eq_false_of_no_underscore
    intro hmem
    rw [List.mem_append] at hmem
    rcases hmem with hm | hm
    · rcases hver '_' hm with hd | hdot
      · exact absurd hd (by decide)
      · exact absurd hdot (by decide)
    · exact absurd hm (by decide)
  have hparse : parsedFileVersion
      ⟨stem ++ '_' :: 'v' :: (ver ++ '.' :: 'p' :: 'k' :: 'l' :: [])⟩ = ⟨ver⟩ := by
    unfold parsedFileVersion
    rw [show (⟨stem ++ '_' :: 'v' :: (ver ++ '.' :: 'p' :: 'k' :: 'l' :: [])⟩ : String).data
        = stem ++ '_' :: 'v' :: (ver ++ '.' :: 'p' :: 'k' :: 'l' :: []) from rfl]
    rw [splitVSep_append_sep stem _ hu, removePkl_append_pkl ver hp]
  have hassoc : stem ++ '_' :: 'v' :: (ver ++ '.' :: 'p' :: 'k' :: 'l' :: [])
      = (stem ++ '_' :: 'v' :: ver) ++ '.' :: 'p' :: 'k' :: 'l' :: [] := by
    simp
  have hends : endsPkl (stem ++ '_' :: 'v' :: (ver ++ '.' :: 'p' :: 'k' :: 'l' :: [])) = true := by
    rw [hassoc]
    exact endsPkl_append_pkl _
  refine ⟨?_, hparse, ?_⟩
  · unfold cleanupRemoves
    rw [show (⟨stem ++ '_' :: 'v' :: (ver ++ '.' :: 'p' :: 'k' :: 'l' :: [])⟩ : String).data
        = stem ++ '_' :: 'v' :: (ver ++ '.' :: 'p' :: 'k' :: 'l' :: []) from rfl]
    rw [hends, hparse]
    rfl
  · intro f hf
    unfold cleanupRemoves
    rw [hf]
    rfl

/-- Claim C4 witness: a well-formed artifact name with the compatible
previous version 0.9.0; the parsed version is 0.9.0 and the file is kept. -/
theorem claim_C4_witness :
    (∀ c ∈ "0.9.0".data, c.isDigit ∨ c = '.')
  ∧ cleanupRemoves
      ⟨"market_forecaster".data ++ '_' :: 'v' :: ("0.9.0".data ++ '.' :: 'p' :: 'k' :: 'l' :: [])⟩
      = !(decide ((⟨"0.9.0".data⟩ : String) ∈ COMPATIBLE_VERSIONS))
  ∧ parsedFileVersion
      ⟨"market_forecaster".data ++ '_' :: 'v' :: ("0.9.0".data ++ '.' :: 'p' :: 'k' :: 'l' :: [])⟩
      = ⟨"0.9.0".data⟩ :=
  ⟨by decide,
   (claim_C4_cleanup_by_parsed_version "market_forecaster".data "0.9.0".data (by decide)).1,
   (claim_C4_cleanup_by_parsed_version "market_forecaster".data "0.9.0".data (by decide)).2.1⟩

/-! # Order and counting lemmas for the maintenance report -/

/-- keyLT is transitive. -/
theorem keyLT_trans {a b c : Nat × Nat} (h1 : keyLT a b) (h2 : keyLT b c) :
    keyLT a c := by
  unfold keyLT at *
  rcases h1 with h1 | ⟨e1, h1⟩
  · rcases h2 with h2 | ⟨e2, h2⟩
    · exact Or.inl (Nat.lt_trans h1 h2)
    · exact Or.inl (by rw [← e2]; exact h1)
  · rcases h2 with h2 | ⟨e2, h2⟩
    · exact Or.inl (by rw [e1]; exact h2)
    · exact Or.inr ⟨e1.trans e2, Nat.lt_trans h1 h2⟩

/-- keyLT is irreflexive. -/
theorem keyLT_irrefl (a : Nat × Nat) : ¬keyLT a a := by
  unfold keyLT
  rintro (h | ⟨_, h⟩) <;> exact Nat.lt_irrefl _ h

/-- Two distinct keys compare one way or the other. -/
theorem keyLT_connex {a b : Nat × Nat} (h1 : ¬keyLT a b) (h2 : a ≠ b) :
    keyLT b a := by
  unfold keyLT at *
  rcases Nat.lt_trichotomy a.1 b.1 with hf | hf | hf
  · exact absurd (Or.inl hf) h1
  · rcases Nat.lt_trichotomy a.2 b.2 with hs | hs | hs
    · exact absurd (Or.inr ⟨hf, hs⟩) h1
    · exact absurd (Prod.ext hf hs) h2
    · exact Or.inr ⟨hf.symm, hs⟩
  · exact Or.inl hf

/-- The rank order scoreIdxLT is transitive. -/
theorem scoreIdxLT_trans {x y z : Nat × GroupRow}
    (h1 : scoreIdxLT x y) (h2 : scoreIdxLT y z) : scoreIdxLT x z := by
  unfold scoreIdxLT at *
  rcases h1 with h1 | ⟨e1, h1⟩
  · rcases h2 with h2 | ⟨e2, h2⟩
    · exact Or.inl (lt_trans h1 h2)
    · exact Or.inl (by rw [← e2]; exact h1)
  · rcases h2 with h2 | ⟨e2, h2⟩
    · exact Or.inl (by rw [e1]; exact h2)
    · exact Or.inr ⟨e1.trans e2, Nat.lt_trans h1 h2⟩

/-- The rank order scoreIdxLT is irreflexive. -/
theorem scoreIdxLT_irrefl (x : Nat × GroupRow) : ¬scoreIdxLT x x := by
  unfold scoreIdxLT
  rintro (h | ⟨_, h⟩)
  · exact lt_irrefl _ h
  · exact Nat.lt_irrefl _ h

/-- Rows at distinct positions are comparable in the rank order. -/
theorem scoreIdxLT_connex {x y : Nat × GroupRow} (h : x.1 ≠ y.1) :
    scoreIdxLT x y ∨ scoreIdxLT y x := by
  unfold scoreIdxLT
  rcases lt_trichotomy x.2.minScore y.2.minScore with hs | hs | hs
  · exact Or.inl (Or.inl hs)
  · rcases Nat.lt_or_ge x.1 y.1 with hi | hi
    · exact Or.inl (Or.inr ⟨hs, hi⟩)
    · have hlt : y.1 < x.1 := Nat.lt_of_le_of_ne hi (fun he => h he.symm)
      exact Or.inr (Or.inr ⟨hs.symm, hlt⟩)
  · exact Or.inr (Or.inl hs)

/-- Strict monotonicity of countP: a predicate below another one, with a
witness separating them, counts strictly fewer elements. -/
theorem countP_lt_countP {α : Type} : ∀ (l : List α) (p q : α → Bool),
    (∀ a ∈ l, p a = true → q a = true) → ∀ a, a ∈ l →
    q a = true → p a = false → List.countP p l < List.countP q l
  | [], _, _, _, a, ha, _, _ => absurd ha (List.not_mem_nil a)
  | b :: t, p, q, hsub, a, ha, hqa, hpa => by
    rw [List.countP_cons, List.countP_cons]
    have hmono : List.countP p t ≤ List.countP q t :=
      List.countP_mono_left (fun x hx hp => hsub x (List.mem_cons_of_mem b hx) hp)
    rcases List.mem_cons.mp ha with rfl | hat
    · rw [hpa, hqa]
      simp only [Bool.false_eq_true, if_false, if_true]
      omega
    · have hlt := countP_lt_countP t p q
        (fun x hx hp => hsub x (List.mem_cons_of_mem b hx) hp) a hat hqa hpa
      have hb : (if p b = true then 1 else 0) ≤ (if q b = true then 1 else 0) := by
        by_cases hpb : p b = true
        · rw [if_pos hpb, if_pos (hsub b (List.mem_cons_self b t) hpb)]
        · rw [if_neg hpb]
          exact Nat.zero_le _
      omega

/-- The first components of a zip inherit a pairwise relation from the left
list. -/
theorem pairwise_fst_zip {α β : Type} {P : α → α → Prop} :
    ∀ (xs : List α) (ys : List β), List.Pairwise P xs →
    List.Pairwise (fun a b => P a.1 b.1) (xs.zip ys)
  | [], _, _ => by simp
  | _ :: _, [], _ => by simp
  | x :: xs', y :: ys', h => by
    rw [List.zip_cons_cons, List.pairwise_cons]
    rw [List.pairwise_cons] at h
    refine ⟨?_, pairwise_fst_zip xs' ys' h.2⟩
    intro ab hab
    exact h.1 ab.1 (List.of_mem_zip (show (ab.1, ab.2) ∈ xs'.zip ys' from hab)).1

/-- The positions of an enumerated list are strictly increasing. -/
theorem pairwise_fst_lt_enum {α : Type} (l : List α) :
    List.Pairwise (fun a b => a.1 < b.1) l.enum := by
  rw [List.enum_eq_zip_range]
  exact pairwise_fst_zip _ _ (List.pairwise_lt_range l.length)

/-- An enumerated list pairs each position with exactly one row. -/
theorem enum_eq_of_fst_eq {α : Type} {l : List α} :
    ∀ x y : Nat × α, x ∈ l.enum → y ∈ l.enum → x.1 = y.1 → x = y := by
  rintro ⟨i, a⟩ ⟨j, b⟩ hx hy hij
  obtain rfl : i = j := hij
  obtain ⟨hlt, ha⟩ := List.mem_enum hx
  obtain ⟨hlt2, hb⟩ := List.mem_enum hy
  rw [Prod.mk.injEq]
  exact ⟨rfl, by rw [ha, hb]⟩

/-- The rank is strictly monotone along the rank order. -/
theorem prioIn_lt_of_scoreIdxLT {L : List (Nat × GroupRow)} {x y : Nat × GroupRow}
    (hx : x ∈ L) (hy : y ∈ L) (hxy : scoreIdxLT x y) :
    prioIn L x < prioIn L y := by
  unfold prioIn
  have h := countP_lt_countP L
    (fun z => decide (scoreIdxLT z x)) (fun z => decide (scoreIdxLT z y))
    (fun a _ hp => by
      rw [decide_eq_true_eq] at hp
      exact decide_eq_true (scoreIdxLT_trans hp hxy))
    x hx (decide_eq_true hxy)
    (by rw [decide_eq_false_iff_not]; exact scoreIdxLT_irrefl x)
  omega

/-- The rank of a member never exceeds the frame length. -/
theorem prioIn_le_length {L : List (Nat × GroupRow)} {x : Nat × GroupRow}
    (hx : x ∈ L) : prioIn L x ≤ L.length := by
  unfold prioIn
  have hne : List.countP (fun z => decide (scoreIdxLT z x)) L ≠ L.length := by
    intro he
    have hall := List.countP_eq_length.mp he x hx
    rw [decide_eq_true_eq] at hall
    exact scoreIdxLT_irrefl x hall
  have hle := List.countP_le_length (fun z => decide (scoreIdxLT z x)) (l := L)
  omega

/-- Ranks reflect the rank order on members of the enumerated frame. -/
theorem scoreIdxLT_of_prioIn_lt {gs : List GroupRow} {x y : Nat × GroupRow}
    (hx : x ∈ gs.enum) (hy : y ∈ gs.enum)
    (h : prioIn gs.enum x < prioIn gs.enum y) : scoreIdxLT x y := by
  by_cases hfst : x.1 = y.1
  · have hxy := enum_eq_of_fst_eq x y hx hy hfst
    rw [hxy] at h
    exact absurd h (Nat.lt_irrefl _)
  · rcases scoreIdxLT_connex hfst with hc | hc
    · exact hc
    · have := prioIn_lt_of_scoreIdxLT hy hx hc
      omega

/-! # Grouping lemmas -/

/-- Every key in the aggregation after an insert comes from the inserted
reading or from the previous groups. -/
theorem mem_insertReading : ∀ (gs : List GroupRow) (r : Reading) (y : GroupRow),
    y ∈ insertReading r gs → gkey y = rkey r ∨ ∃ g ∈ gs, gkey y = gkey g
  | [], r, y, hy => by
    simp only [insertReading, List.mem_singleton] at hy
    exact Or.inl (by rw [hy]; rfl)
  | g :: gs', r, y, hy => by
    unfold insertReading at hy
    by_cases h1 : keyLT (rkey r) (gkey g)
    · rw [if_pos h1] at hy
      rcases List.mem_cons.mp hy with rfl | hy2
      · exact Or.inl rfl
      · exact Or.inr ⟨y, hy2, rfl⟩
    · rw [if_neg h1] at hy
      by_cases h2 : rkey r = gkey g
      · rw [if_pos h2] at hy
        rcases List.mem_cons.mp hy with rfl | hy2
        · exact Or.inr ⟨g, List.mem_cons_self g gs', rfl⟩
        · exact Or.inr ⟨y, List.mem_cons_of_mem g hy2, rfl⟩
      · rw [if_neg h2] at hy
        rcases List.mem_cons.mp hy with rfl | hy2
        · exact Or.inr ⟨y, List.mem_cons_self y gs', rfl⟩
        · rcases mem_insertReading gs' r y hy2 with he | ⟨g2, hg2, he⟩
          · exact Or.inl he
          · exact Or.inr ⟨g2, List.mem_cons_of_mem g hg2, he⟩

/-- Inserting a reading preserves the strict key ordering of the
aggregation. -/
theorem pairwise_insertReading : ∀ (gs : List GroupRow) (r : Reading),
    List.Pairwise (fun g h => keyLT (gkey g) (gkey h)) gs →
    List.Pairwise (fun g h => keyLT (gkey g) (gkey h)) (insertReading r gs)
  | [], r, _ => by simp [insertReading]
  | g :: gs', r, h => by
    rw [List.pairwise_cons] at h
    unfold insertReading
    by_cases h1 : keyLT (rkey r) (gkey g)
    · rw [if_pos h1, List.pairwise_cons]
      constructor
      · intro a ha
        rcases List.mem_cons.mp ha with rfl | ha2
        · exact h1
        · exact keyLT_trans h1 (h.1 a ha2)
      · exact List.pairwise_cons.mpr h
    · rw [if_neg h1]
      by_cases h2 : rkey r = gkey g
      · rw [if_pos h2, List.pairwise_cons]
        exact ⟨fun a ha => h.1 a ha, h.2⟩
      · rw [if_neg h2, List.pairwise_cons]
        constructor
        · intro a ha
          rcases mem_insertReading gs' r a ha with he | ⟨g2, hg2, he⟩
          · rw [he]
            exact keyLT_connex h1 h2
          · rw [he]
            exact h.1 g2 hg2
        · exact pairwise_insertReading gs' r h.2

/-- The fold underlying groupAgg keeps the key ordering invariant. -/
theorem pairwise_foldl_insert : ∀ (rs : List Reading) (acc : List GroupRow),
    List.Pairwise (fun g h => keyLT (gkey g) (gkey h)) acc →
    List.Pairwise (fun g h => keyLT (gkey g) (gkey h))
      (rs.foldl (fun gs r => insertReading r gs) acc)
  | [], _, h => h
  | r :: rs', acc, h => by
    rw [List.foldl_cons]
    exact pairwise_foldl_insert rs' _ (pairwise_insertReading acc r h)

/-- The aggregated groups are strictly sorted by key. -/
theorem pairwise_groupAgg (rs : List Reading) :
    List.Pairwise (fun g h => keyLT (gkey g) (gkey h)) (groupAgg rs) :=
  pairwise_foldl_insert rs [] List.Pairwise.nil

/-! # The report is sorted and contiguously ranked -/

/-- Every entry of the ranked frame is an enumerated group carrying its own
rank. -/
theorem mem_rankFirstIdx (gs : List GroupRow) :
    ∀ t ∈ rankFirstIdx gs,
      (t.1, t.2.1) ∈ gs.enum ∧ t.2.2 = prioIn gs.enum (t.1, t.2.1) := by
  intro t ht
  obtain ⟨x, hxL, hfx⟩ := List.mem_map.mp ht
  subst hfx
  exact ⟨hxL, rfl⟩

/-- For a key-sorted group frame, the emitted report rows are pairwise in
ascending minimum-score order with ties in ascending key order, and the
Priority column is exactly 1, 2, ..., n. -/
theorem reportRows_sorted_ranked (gs : List GroupRow)
    (hkeys : List.Pairwise (fun g h => keyLT (gkey g) (gkey h)) gs) :
    List.Pairwise reportOrderRel (reportRows gs)
  ∧ (reportRows gs).map ReportRow.priority
      = List.range' 1 ((reportRows gs).length) := by
  have hperm : (sortByPriority (rankFirstIdx gs)).Perm (rankFirstIdx gs) :=
    List.perm_insertionSort priorityLE (rankFirstIdx gs)
  have hsorted : List.Pairwise priorityLE (sortByPriority (rankFirstIdx gs)) :=
    List.sorted_insertionSort priorityLE (rankFirstIdx gs)
  have hpfst := pairwise_fst_lt_enum gs
  have hne_rank : List.Pairwise (fun s t => s.2.2 ≠ t.2.2) (rankFirstIdx gs) := by
    apply List.pairwise_map.mpr
    apply hpfst.imp_of_mem
    intro a b ha hb hab
    rcases scoreIdxLT_connex (Nat.ne_of_lt hab) with hc | hc
    · exact Nat.ne_of_lt (prioIn_lt_of_scoreIdxLT ha hb hc)
    · exact (Nat.ne_of_lt (prioIn_lt_of_scoreIdxLT hb ha hc)).symm
  have hne_T : List.Pairwise (fun s t => s.2.2 ≠ t.2.2)
      (sortByPriority (rankFirstIdx gs)) :=
    hne_rank.perm hperm.symm (fun h => h.symm)
  have hlt_T : List.Pairwise (fun s t => s.2.2 < t.2.2)
      (sortByPriority (rankFirstIdx gs)) :=
    (hsorted.and hne_T).imp (fun h => Nat.lt_of_le_of_ne h.1 h.2)
  have hT_mem_rank : ∀ t ∈ sortByPriority (rankFirstIdx gs), t ∈ rankFirstIdx gs :=
    fun t ht => hperm.mem_iff.mp ht
  have hkeysIdx : ∀ x y : Nat × GroupRow, x ∈ gs.enum → y ∈ gs.enum →
      x.1 < y.1 → keyLT (gkey x.2) (gkey y.2) := by
    intro x y hx hy hij
    obtain ⟨hxl, hxg⟩ := List.mem_enum (show (x.1, x.2) ∈ gs.enum from hx)
    obtain ⟨hyl, hyg⟩ := List.mem_enum (show (y.1, y.2) ∈ gs.enum from hy)
    have hk := List.pairwise_iff_getElem.mp hkeys x.1 y.1 hxl hyl hij
    rw [hxg, hyg]
    exact hk
  have hMain_T : List.Pairwise
      (fun s t : Nat × GroupRow × Nat => s.2.1.minScore < t.2.1.minScore ∨
        (s.2.1.minScore = t.2.1.minScore ∧ keyLT (gkey s.2.1) (gkey t.2.1)))
      (sortByPriority (rankFirstIdx gs)) := by
    apply hlt_T.imp_of_mem
    intro s t hs ht hlt
    obtain ⟨hsL, hsp⟩ := mem_rankFirstIdx gs s (hT_mem_rank s hs)
    obtain ⟨htL, htp⟩ := mem_rankFirstIdx gs t (hT_mem_rank t ht)
    have hprio : prioIn gs.enum (s.1, s.2.1) < prioIn gs.enum (t.1, t.2.1) := by
      rw [← hsp, ← htp]
      exact hlt
    have hilt := scoreIdxLT_of_prioIn_lt hsL htL hprio
    unfold scoreIdxLT at hilt
    rcases hilt with hlt2 | ⟨heq, hij⟩
    · exact Or.inl hlt2
    · exact Or.inr ⟨heq, hkeysIdx (s.1, s.2.1) (t.1, t.2.1) hsL htL hij⟩
  have hreplen : (reportRows gs).length = gs.length := by
    unfold reportRows
    rw [List.length_map, hperm.length_eq]
    unfold rankFirstIdx
    rw [List.length_map, List.enum_length]
  constructor
  · unfold reportRows
    exact List.Pairwise.map _ (fun a b hab => hab) hMain_T
  · have hPmr : (reportRows gs).map ReportRow.priority
        = (sortByPriority (rankFirstIdx gs)).map (fun t => t.2.2) := by
      unfold reportRows
      rw [List.map_map]
      rfl
    have hPsorted : List.Pairwise (fun a b : Nat => a ≤ b)
        ((sortByPriority (rankFirstIdx gs)).map (fun t => t.2.2)) :=
      List.Pairwise.map _ (fun a b hab => hab) hsorted
    have hPnodup : ((sortByPriority (rankFirstIdx gs)).map (fun t => t.2.2)).Nodup :=
      List.Pairwise.map _ (fun a b hab => hab) hne_T
    have hPperm_rank : ((sortByPriority (rankFirstIdx gs)).map (fun t => t.2.2)).Perm
        ((rankFirstIdx gs).map (fun t => t.2.2)) := hperm.map _
    have hrankP : (rankFirstIdx gs).map (fun t => t.2.2)
        = gs.enum.map (fun x => prioIn gs.enum x) := by
      unfold rankFirstIdx
      rw [List.map_map]
      rfl
    rw [hrankP] at hPperm_rank
    have hsubset : ∀ q ∈ gs.enum.map (fun x => prioIn gs.enum x),
        q ∈ List.range' 1 gs.length := by
      intro q hq
      obtain ⟨x, hx, rfl⟩ := List.mem_map.mp hq
      have h1 : 1 ≤ prioIn gs.enum x := Nat.le_add_right 1 _
      have h2 : prioIn gs.enum x ≤ gs.length := by
        have := prioIn_le_length hx
        rwa [List.enum_length] at this
      rw [List.mem_range']
      exact ⟨prioIn gs.enum x - 1, by omega, by omega⟩
    have hnodup_rank : (gs.enum.map (fun x => prioIn gs.enum x)).Nodup :=
      hPperm_rank.nodup_iff.mp hPnodup
    have hsub := List.subperm_of_subset hnodup_rank hsubset
    have hlen : (List.range' 1 gs.length).length
        ≤ (gs.enum.map (fun x => prioIn gs.enum x)).length := by
      rw [List.length_range', List.length_map, List.enum_length]
    have hpr := hsub.perm_of_length_le hlen
    have hPperm_range : ((sortByPriority (rankFirstIdx gs)).map (fun t => t.2.2)).Perm
        (List.range' 1 gs.length) := hPperm_rank.trans hpr
    have hPeq : (sortByPriority (rankFirstIdx gs)).map (fun t => t.2.2)
        = List.range' 1 gs.length :=
      List.eq_of_perm_of_sorted hPperm_range hPsorted
        (List.pairwise_le_range' 1 gs.length)
    rw [hPmr, hPeq, hreplen]

/-! # Claim C3 -/

/-- Claim C3 counterexample: two readings with equal health scores in two
groups, where the first-occurrence order of the groups in the input is
(2, 1) before (1, 7).  The spec asserts the tie is broken by stable original
ordering, which would put group (2, 1) first; the code groups with pandas
groupby, which sorts keys ascending, and rank(method='first') then breaks
the tie by that key-sorted position, so the report lists (1, 7) first. -/
theorem claim_C3_counterexample :
    generateMaintenanceReport fsEmpty cTiePred cTieRows
      = .ok [⟨1, 7, 10, 3, 1⟩, ⟨2, 1, 10, 5, 2⟩]
  ∧ (∀ row ∈ [(⟨1, 7, 10, 3, 1⟩ : ReportRow), ⟨2, 1, 10, 5, 2⟩], row.minScore = 10)
  ∧ specFirstOccurrenceKeys cTieRows = [(2, 1), (1, 7)]
  ∧ [(⟨1, 7, 10, 3, 1⟩ : ReportRow), ⟨2, 1, 10, 5, 2⟩].map reportKey
      ≠ specFirstOccurrenceKeys cTieRows :=
  ⟨rfl, by decide, by decide, by decide⟩

/-- Claim C3 as amended: whenever generate_maintenance_report returns a
report, its rows are sorted ascending by minimum health score with ties
between equal minimum scores broken by ascending (facility, equipment)
group key — the order pandas groupby emits — not by first occurrence in the
input, and the priority ranks are exactly the contiguous sequence
1, 2, ..., n; with no model available (none in memory, none on disk) or an
empty input the report is empty rather than an error. -/
theorem claim_C3_report_sorted_ranked (fs : FS) (p : MaintenancePredictor)
    (df : List Reading) :
    (∀ out, generateMaintenanceReport fs p df = .ok out →
        List.Pairwise reportOrderRel out
      ∧ out.map ReportRow.priority = List.range' 1 out.length
      ∧ List.Pairwise (fun a b => a.minScore ≤ b.minScore) out)
  ∧ (p.model = none → fs p.modelPath = none →
      generateMaintenanceReport fs p df = .ok [])
  ∧ (∀ pl, p.model = some pl → df = [] →
      generateMaintenanceReport fs p df = .ok []) := by
  refine ⟨?_, ?_, ?_⟩
  · intro out hout
    unfold generateMaintenanceReport at hout
    cases hE : (if p.model.isNone then maintLoadModelSelf fs p else Except.ok p) with
    | error e =>
      rw [hE] at hout
      exact absurd hout (by simp)
    | ok p2 =>
      rw [hE] at hout
      dsimp only at hout
      cases hm : p2.model with
      | none =>
        rw [hm] at hout
        dsimp only at hout
        have hnil : out = [] := by
          have := Except.ok.inj hout
          exact this.symm
        subst hnil
        exact ⟨List.Pairwise.nil, by simp [List.range'], List.Pairwise.nil⟩
      | some pl =>
        rw [hm] at hout
        dsimp only at hout
        by_cases hdf : df.isEmpty
        · rw [if_pos hdf] at hout
          have hnil : out = [] := (Except.ok.inj hout).symm
          subst hnil
          exact ⟨List.Pairwise.nil, by simp [List.range'], List.Pairwise.nil⟩
        · rw [if_neg hdf] at hout
          cases hpa : payloadPredictAttr pl with
          | error e =>
            rw [hpa] at hout
            exact absurd hout (by simp)
          | ok pf =>
            rw [hpa] at hout
            dsimp only at hout
            by_cases hnan : (df.map (fun r => r.healthscore)).any (fun v => v.isNone)
            · rw [if_pos hnan] at hout
              exact absurd hout (by simp)
            · rw [if_neg hnan] at hout
              have hrep : out = reportRows (groupAgg
                  (df.filter (fun r => pf (r.healthscore.getD 0) == -1))) :=
                (Except.ok.inj hout).symm
              subst hrep
              obtain ⟨hpair, hrange⟩ := reportRows_sorted_ranked _
                (pairwise_groupAgg
                  (df.filter (fun r => pf (r.healthscore.getD 0) == -1)))
              refine ⟨hpair, hrange, hpair.imp ?_⟩
              intro a b hab
              rcases hab with h | ⟨h, _⟩
              · exact le_of_lt h
              · exact le_of_eq h
  · intro h1 h2
    unfold generateMaintenanceReport
    simp [h1, maintLoadModelSelf, h2]
  · intro pl h1 h2
    subst h2
    unfold generateMaintenanceReport
    simp [h1]

/-- Claim C3 witness: a concrete trained model over three readings in two
anomalous groups with distinct minimum scores; the report is ranked 1, 2 by
ascending score. -/
theorem claim_C3_witness :
    generateMaintenanceReport fsEmpty cRepPred cRepRows
      = .ok [⟨2, 1, 20, 11, 1⟩, ⟨3, 1, 50, 10, 2⟩]
  ∧ List.Pairwise reportOrderRel [(⟨2, 1, 20, 11, 1⟩ : ReportRow), ⟨3, 1, 50, 10, 2⟩]
  ∧ [(⟨2, 1, 20, 11, 1⟩ : ReportRow), ⟨3, 1, 50, 10, 2⟩].map ReportRow.priority
      = List.range' 1 ([(⟨2, 1, 20, 11, 1⟩ : ReportRow), ⟨3, 1, 50, 10, 2⟩].length) :=
  ⟨rfl,
   ((claim_C3_report_sorted_ranked fsEmpty cRepPred cRepRows).1
     [⟨2, 1, 20, 11, 1⟩, ⟨3, 1, 50, 10, 2⟩] rfl).1,
   ((claim_C3_report_sorted_ranked fsEmpty cRepPred cRepRows).1
     [⟨2, 1, 20, 11, 1⟩, ⟨3, 1, 50, 10, 2⟩] rfl).2.1⟩
